import Mathlib

/-!
# Verification of the risk-calculation engine (`src/risk_calculator.py`)

Shallow embedding of the `RiskCalculator` class over exact real arithmetic.
Machine floats are modelled by `ℝ`; the external randomness sources
(`np.random.choice` index draws, `scipy.stats.t.rvs` draws) are modelled as
explicit index/draw streams passed in as parameters; the external library
value `scipy.stats.norm.ppf(alpha)` is passed in as an explicit real
parameter `z`.  Division by zero, which numpy turns into non-finite floats
under the module-wide `warnings.filterwarnings('ignore')`, is total in both
settings (Lean: `x / 0 = 0`); no code path in the module raises.
-/

open Matrix

namespace RiskAnalytics

noncomputable section

/-- Mean of a list of reals (`pandas.Series.mean`): sum divided by length. -/
def listMean (l : List ℝ) : ℝ := l.sum / l.length

/-- Sample standard deviation with `ddof = 1` (`pandas.Series.std`):
square root of the sum of squared deviations divided by `n - 1`. -/
def listStd (l : List ℝ) : ℝ :=
  Real.sqrt ((l.map (fun x => (x - listMean l) ^ 2)).sum / ((l.length : ℝ) - 1))

/-- Minimum of a list (`pandas.Series.min`); `0` on the empty list
(pandas returns NaN there; the value is never used on an empty list). -/
def listMin : List ℝ → ℝ
  | [] => 0
  | x :: xs => xs.foldl min x

/-- Sorted copy of a list; `np.percentile` sorts its input internally. -/
def sortList (l : List ℝ) : List ℝ := List.insertionSort (· ≤ ·) l

/-- Linear interpolation of a (sorted) list at fractional position `p`:
the value `s[⌊p⌋] + (p - ⌊p⌋) * (s[⌈p⌉] - s[⌊p⌋])` used by
`np.percentile`'s default "linear" method. -/
def interpAt (s : List ℝ) (p : ℝ) : ℝ :=
  s.getD ⌊p⌋.toNat 0 + Int.fract p * (s.getD ⌈p⌉.toNat 0 - s.getD ⌊p⌋.toNat 0)

/-- `np.percentile(l, q)` with the default linear-interpolation method:
interpolate the sorted data at position `q / 100 * (len - 1)`. -/
def percentileVal (l : List ℝ) (q : ℝ) : ℝ :=
  interpAt (sortList l) (q / 100 * ((l.length : ℝ) - 1))

/-- The pooled bootstrap sample built by `_calculate_historical_var`:
returns are scaled by `sqrt(time_horizon)`, then 1000 resamples of the
full series are drawn with replacement and pooled into one list.  The
random source is modelled by `sampler`, the stream of indices produced by
`np.random.choice`; draw `j` of the flattened `1000 * n` draws picks index
`sampler j`. -/
def bootstrap_pool (sampler : ℕ → ℕ) (returns : List ℝ) (time_horizon : ℕ) :
    List ℝ :=
  let scaled := returns.map (fun r => r * Real.sqrt time_horizon)
  (List.range (1000 * returns.length)).map (fun j => scaled.getD (sampler j) 0)

/-- `RiskCalculator._calculate_historical_var`: the `alpha * 100`-th
percentile of the pooled bootstrap sample, times the portfolio value,
absolute value. -/
def calculate_historical_var (sampler : ℕ → ℕ) (returns : List ℝ)
    (time_horizon : ℕ) (alpha : ℝ) (value : ℝ) : ℝ :=
  |percentileVal (bootstrap_pool sampler returns time_horizon) (alpha * 100) * value|

/-- Column mean of a return table (one row per observed period, one column
per asset), as computed inside `pandas.DataFrame.cov`. -/
def colMean {N : ℕ} (rows : List (Fin N → ℝ)) (j : Fin N) : ℝ :=
  ((rows.map (fun r => r j)).sum) / rows.length

/-- `pandas.DataFrame.cov` (sample covariance, `ddof = 1`): entry `(i, j)`
is the sum over rows of `(r i - mean i) * (r j - mean j)`, divided by
`n - 1`. -/
def sample_cov {N : ℕ} (rows : List (Fin N → ℝ)) : Matrix (Fin N) (Fin N) ℝ :=
  Matrix.of fun i j =>
    ((rows.map (fun r => (r i - colMean rows i) * (r j - colMean rows j))).sum) /
      ((rows.length : ℝ) - 1)

/-- One step of the EWMA recursion in `_calculate_ewma_covariance`:
`Cov ← λ·Cov + (1−λ)·(r rᵀ)` with `r` the raw (non-demeaned) return row. -/
def ewma_step {N : ℕ} (lambda_param : ℝ) (C : Matrix (Fin N) (Fin N) ℝ)
    (r : Fin N → ℝ) : Matrix (Fin N) (Fin N) ℝ :=
  lambda_param • C + (1 - lambda_param) • vecMulVec r r

/-- `RiskCalculator._calculate_ewma_covariance`: initialize with the sample
covariance annualized by 252, then fold the EWMA update over the
observations from index 1 on, in chronological order. -/
def calculate_ewma_covariance {N : ℕ} (rows : List (Fin N → ℝ))
    (lambda_param : ℝ) : Matrix (Fin N) (Fin N) ℝ :=
  (rows.drop 1).foldl (ewma_step lambda_param) ((252 : ℝ) • sample_cov rows)

/-- `RiskCalculator._calculate_parametric_var`.  `z` is the externally
computed `scipy.stats.norm.ppf(alpha)`.  Portfolio variance is the
quadratic form of the EWMA covariance (default decay 0.94); horizon
volatility is `sqrt(variance * time_horizon)`; the result is
`|z * vol * value|`. -/
def calculate_parametric_var {N : ℕ} (z : ℝ) (rows : List (Fin N → ℝ))
    (weights : Fin N → ℝ) (value : ℝ) (time_horizon : ℕ) : ℝ :=
  let cov_matrix := calculate_ewma_covariance rows 0.94
  let portfolio_variance := weights ⬝ᵥ cov_matrix.mulVec weights
  let portfolio_vol := Real.sqrt (portfolio_variance * time_horizon)
  |z * portfolio_vol * value|

/-- The scenario list built by `_calculate_monte_carlo_var`: for each of
`simulations` trials, `time_horizon` draws from the fitted Student-t
distribution are summed and converted to currency.  The fitted
distribution and its RNG are modelled by the draw stream `draws`
(`draws i k` is draw `k` of trial `i`). -/
def mc_scenarios (draws : ℕ → ℕ → ℝ) (simulations time_horizon : ℕ)
    (value : ℝ) : List ℝ :=
  (List.range simulations).map
    (fun i => ((List.range time_horizon).map (draws i)).sum * value)

/-- `RiskCalculator._calculate_monte_carlo_var`: absolute value of the
`alpha * 100`-th percentile of the scenario P&L list. -/
def calculate_monte_carlo_var (draws : ℕ → ℕ → ℝ)
    (simulations time_horizon : ℕ) (alpha value : ℝ) : ℝ :=
  |percentileVal (mc_scenarios draws simulations time_horizon value) (alpha * 100)|

/-- `RiskCalculator._calculate_volatility`: sample standard deviation
annualized by `sqrt(252)`. -/
def calculate_volatility (returns : List ℝ) : ℝ :=
  listStd returns * Real.sqrt 252

/-- `RiskCalculator._calculate_sharpe_ratio` (risk-free rate default 0.02):
annualized mean excess return divided by annualized volatility.  numpy
division by a zero volatility yields a non-finite float (warnings
suppressed), never an exception; in the embedding `x / 0 = 0`. -/
def calculate_sharpe (returns : List ℝ) (risk_free_rate : ℝ) : ℝ :=
  (listMean returns * 252 - risk_free_rate) / calculate_volatility returns

/-- The cumulative-product wealth curve `(1 + returns).cumprod()` of
`_calculate_max_drawdown`, with accumulator `acc`. -/
def cumprodFrom (acc : ℝ) : List ℝ → List ℝ
  | [] => []
  | x :: xs => (acc * (1 + x)) :: cumprodFrom (acc * (1 + x)) xs

/-- `(1 + returns).cumprod()` starting from 1. -/
def cum_returns (returns : List ℝ) : List ℝ := cumprodFrom 1 returns

/-- Auxiliary running maximum with current maximum `m`. -/
def runningMaxFrom (m : ℝ) : List ℝ → List ℝ
  | [] => []
  | x :: xs => max m x :: runningMaxFrom (max m x) xs

/-- `Series.expanding().max()`: element `i` is the maximum of the first
`i + 1` elements (the running, not global, maximum). -/
def rolling_max : List ℝ → List ℝ
  | [] => []
  | x :: xs => x :: runningMaxFrom x xs

/-- The drawdown series `(cumulative - rolling_max) / rolling_max`. -/
def drawdowns (returns : List ℝ) : List ℝ :=
  List.zipWith (fun c m => (c - m) / m) (cum_returns returns)
    (rolling_max (cum_returns returns))

/-- `RiskCalculator._calculate_max_drawdown`: absolute value of the
minimum drawdown. -/
def calculate_max_drawdown (returns : List ℝ) : ℝ :=
  |listMin (drawdowns returns)|

/-- The portfolio volatility used by `_calculate_component_var` (the code
names the variable `portfolio_var`): square root of the quadratic form of
the annualized sample covariance. -/
def portfolio_vol {N : ℕ} (rows : List (Fin N → ℝ)) (weights : Fin N → ℝ) : ℝ :=
  Real.sqrt (weights ⬝ᵥ ((252 : ℝ) • sample_cov rows).mulVec weights)

/-- `RiskCalculator._calculate_component_var`: for each asset `i`,
`marginal_var_i = (Cov_row_i · w) / portfolio_vol` and
`component_var_i = w_i * marginal_var_i * value`, with `Cov` the
annualized (non-EWMA) sample covariance.  No absolute value is applied. -/
def calculate_component_var {N : ℕ} (rows : List (Fin N → ℝ))
    (weights : Fin N → ℝ) (value : ℝ) : Fin N → ℝ := fun i =>
  let cov_matrix := (252 : ℝ) • sample_cov rows
  let marginal_var := (cov_matrix.mulVec weights) i / portfolio_vol rows weights
  weights i * marginal_var * value

/-- The portfolio state consumed by the calculator (`PortfolioManager`):
a return table (rows = periods, columns = assets), a weight vector and a
notional value. -/
structure Portfolio (N : ℕ) where
  returns : List (Fin N → ℝ)
  weights : Fin N → ℝ
  value : ℝ

/-- `PortfolioManager.get_portfolio_returns`: the weighted row-sum
`(returns_data * weights).sum(axis=1)`. -/
def portfolio_returns {N : ℕ} (P : Portfolio N) : List ℝ :=
  P.returns.map (fun r => ∑ i, r i * P.weights i)

/-- The configuration stored by `RiskCalculator.__init__`.  The
constructor performs no validation: it stores the fields and derives
`alpha = 1 - confidence_level`. -/
structure RiskConfig where
  confidence_level : ℝ
  time_horizon : ℕ
  simulations : ℕ

/-- `self.alpha = 1 - confidence_level`, set unconditionally in
`__init__`. -/
def alphaOf (cfg : RiskConfig) : ℝ := 1 - cfg.confidence_level

/-- The result record assembled by `calculate_all_var_methods`. -/
structure VarResults (N : ℕ) where
  historical : ℝ
  parametric : ℝ
  monte_carlo : ℝ
  volatility : ℝ
  sharpe : ℝ
  max_drawdown : ℝ
  var_breakdown : Fin N → ℝ

/-- `RiskCalculator.calculate_all_var_methods`: assembles all seven
metrics.  `sampler` models the bootstrap index stream, `draws` the
Monte-Carlo draw stream, `z` the external `norm.ppf(alpha)` value. -/
def calculate_all_var_methods {N : ℕ} (P : Portfolio N) (cfg : RiskConfig)
    (sampler : ℕ → ℕ) (draws : ℕ → ℕ → ℝ) (z : ℝ) : VarResults N where
  historical :=
    calculate_historical_var sampler (portfolio_returns P) cfg.time_horizon
      (alphaOf cfg) P.value
  parametric :=
    calculate_parametric_var z P.returns P.weights P.value cfg.time_horizon
  monte_carlo :=
    calculate_monte_carlo_var draws cfg.simulations cfg.time_horizon
      (alphaOf cfg) P.value
  volatility := calculate_volatility (portfolio_returns P)
  sharpe := calculate_sharpe (portfolio_returns P) 0.02
  max_drawdown := calculate_max_drawdown (portfolio_returns P)
  var_breakdown := calculate_component_var P.returns P.weights P.value

/-! ## Properties of the `np.percentile` model -/

lemma length_sortList (l : List ℝ) : (sortList l).length = l.length :=
  List.length_insertionSort _ l

lemma mem_sortList {l : List ℝ} {x : ℝ} : x ∈ sortList l ↔ x ∈ l :=
  List.mem_insertionSort _

lemma sorted_sortList (l : List ℝ) : (sortList l).Sorted (· ≤ ·) :=
  List.sorted_insertionSort _ l

lemma sorted_getD_mono {s : List ℝ} (hs : s.Sorted (· ≤ ·)) {i j : ℕ}
    (hij : i ≤ j) (hj : j < s.length) : s.getD i 0 ≤ s.getD j 0 := by
  have hi : i < s.length := lt_of_le_of_lt hij hj
  rw [List.getD_eq_get _ _ hi, List.getD_eq_get _ _ hj]
  exact hs.rel_get_of_le (show (⟨i, hi⟩ : Fin s.length) ≤ ⟨j, hj⟩ from hij)

lemma interpAt_bounds {s : List ℝ} (hs : s.Sorted (· ≤ ·)) {p : ℝ}
    (h0 : 0 ≤ p) (hp : p ≤ (s.length : ℝ) - 1) :
    s.getD ⌊p⌋.toNat 0 ≤ interpAt s p ∧ interpAt s p ≤ s.getD ⌈p⌉.toNat 0 := by
  have hfl : 0 ≤ ⌊p⌋ := Int.floor_nonneg.mpr h0
  have hceil : ⌈p⌉ ≤ (s.length : ℤ) - 1 := by
    rw [Int.ceil_le]; push_cast; linarith
  have hfc : ⌊p⌋ ≤ ⌈p⌉ := Int.floor_le_ceil p
  have h1 : (1 : ℝ) ≤ (s.length : ℝ) := by linarith
  have h1' : 1 ≤ s.length := by exact_mod_cast h1
  have hlohi : ⌊p⌋.toNat ≤ ⌈p⌉.toNat := by omega
  have hhi : ⌈p⌉.toNat < s.length := by omega
  have hd : s.getD ⌊p⌋.toNat 0 ≤ s.getD ⌈p⌉.toNat 0 :=
    sorted_getD_mono hs hlohi hhi
  have hf0 : 0 ≤ Int.fract p := Int.fract_nonneg p
  have hf1 : Int.fract p ≤ 1 := (Int.fract_lt_one p).le
  unfold interpAt
  constructor
  · nlinarith
  · nlinarith

lemma interpAt_mono {s : List ℝ} (hs : s.Sorted (· ≤ ·)) {p₁ p₂ : ℝ}
    (h0 : 0 ≤ p₁) (h12 : p₁ ≤ p₂) (hp : p₂ ≤ (s.length : ℝ) - 1) :
    interpAt s p₁ ≤ interpAt s p₂ := by
  have h02 : 0 ≤ p₂ := le_trans h0 h12
  have hp1 : p₁ ≤ (s.length : ℝ) - 1 := le_trans h12 hp
  have h1 : (1 : ℝ) ≤ (s.length : ℝ) := by linarith
  have h1' : 1 ≤ s.length := by exact_mod_cast h1
  have hfl1 : 0 ≤ ⌊p₁⌋ := Int.floor_nonneg.mpr h0
  have hfl2 : ⌊p₂⌋ ≤ (s.length : ℤ) - 1 := by
    have h := Int.floor_le_floor (α := ℝ) hp
    rwa [show ((s.length : ℝ) - 1) = (((s.length : ℤ) - 1 : ℤ) : ℝ) by
      push_cast; ring, Int.floor_intCast] at h
  rcases eq_or_lt_of_le (Int.floor_le_floor h12) with heq | hlt
  · -- same floor segment
    by_cases hf : Int.fract p₁ = 0
    · have hlow := (interpAt_bounds hs h02 hp).1
      have he1 : interpAt s p₁ = s.getD ⌊p₁⌋.toNat 0 := by
        unfold interpAt; rw [hf]; ring
      rw [he1, heq]
      exact hlow
    · have hf1 : 0 < Int.fract p₁ := lt_of_le_of_ne (Int.fract_nonneg p₁) (Ne.symm hf)
      have hfr1 : Int.fract p₁ = p₁ - ⌊p₁⌋ := rfl
      have hfr2 : Int.fract p₂ = p₂ - ⌊p₂⌋ := rfl
      have hgt1 : (⌊p₁⌋ : ℝ) < p₁ := by rw [hfr1] at hf1; linarith
      have hc1 : ⌈p₁⌉ = ⌊p₁⌋ + 1 := by
        have hub := Int.ceil_le_floor_add_one p₁
        have hlb : (⌊p₁⌋ : ℝ) < (⌈p₁⌉ : ℝ) := lt_of_lt_of_le hgt1 (Int.le_ceil p₁)
        have : ⌊p₁⌋ < ⌈p₁⌉ := by exact_mod_cast hlb
        omega
      have hf2 : 0 < Int.fract p₂ := by
        rw [hfr2, ← heq]; rw [hfr1] at hf1; linarith
      have hgt2 : (⌊p₂⌋ : ℝ) < p₂ := by rw [hfr2] at hf2; linarith
      have hc2 : ⌈p₂⌉ = ⌊p₂⌋ + 1 := by
        have hub := Int.ceil_le_floor_add_one p₂
        have hlb : (⌊p₂⌋ : ℝ) < (⌈p₂⌉ : ℝ) := lt_of_lt_of_le hgt2 (Int.le_ceil p₂)
        have : ⌊p₂⌋ < ⌈p₂⌉ := by exact_mod_cast hlb
        omega
      have hceil2 : ⌈p₂⌉ ≤ (s.length : ℤ) - 1 := by
        rw [Int.ceil_le]; push_cast; linarith
      have hhi : ⌈p₂⌉.toNat < s.length := by omega
      have hlohi : ⌊p₂⌋.toNat ≤ ⌈p₂⌉.toNat := by
        have := Int.floor_le_ceil p₂; omega
      have hd : s.getD ⌊p₂⌋.toNat 0 ≤ s.getD ⌈p₂⌉.toNat 0 :=
        sorted_getD_mono hs hlohi hhi
      have hfle : Int.fract p₁ ≤ Int.fract p₂ := by
        rw [hfr1, hfr2, ← heq]; linarith
      rw [hc2] at hd
      unfold interpAt
      rw [hc1, hc2, heq]
      nlinarith [hd, hfle, hf1.le]
  · -- the floors differ: go through the intermediate index ⌊p₂⌋
    have b1 := (interpAt_bounds hs h0 hp1).2
    have b2 := (interpAt_bounds hs h02 hp).1
    have hc : ⌈p₁⌉ ≤ ⌊p₂⌋ := by
      have := Int.ceil_le_floor_add_one p₁; omega
    have hlo2 : ⌊p₂⌋.toNat < s.length := by omega
    have hij' : ⌈p₁⌉.toNat ≤ ⌊p₂⌋.toNat := by omega
    have hmid : s.getD ⌈p₁⌉.toNat 0 ≤ s.getD ⌊p₂⌋.toNat 0 :=
      sorted_getD_mono hs hij' hlo2
    linarith

lemma percentileVal_mono {l : List ℝ} (hne : l ≠ []) {q₁ q₂ : ℝ}
    (h0 : 0 ≤ q₁) (h12 : q₁ ≤ q₂) (h100 : q₂ ≤ 100) :
    percentileVal l q₁ ≤ percentileVal l q₂ := by
  have hn : 1 ≤ l.length := List.length_pos.mpr hne
  have hn' : (1 : ℝ) ≤ (l.length : ℝ) := by exact_mod_cast hn
  unfold percentileVal
  apply interpAt_mono (sorted_sortList l)
  · apply mul_nonneg (div_nonneg h0 (by norm_num))
    linarith
  · apply mul_le_mul_of_nonneg_right _ (by linarith)
    linarith
  · rw [length_sortList]
    nlinarith

lemma percentileVal_const {l : List ℝ} {v : ℝ} (hne : l ≠ [])
    (hall : ∀ x ∈ l, x = v) {q : ℝ} (h0 : 0 ≤ q) (h100 : q ≤ 100) :
    percentileVal l q = v := by
  have hn : 1 ≤ l.length := List.length_pos.mpr hne
  have hn' : (1 : ℝ) ≤ (l.length : ℝ) := by exact_mod_cast hn
  set p := q / 100 * ((l.length : ℝ) - 1) with hpdef
  have hp0 : 0 ≤ p := mul_nonneg (div_nonneg h0 (by norm_num)) (by linarith)
  have hp : p ≤ (l.length : ℝ) - 1 := by
    have hq1 : q / 100 ≤ 1 := by linarith
    nlinarith
  have hfl : 0 ≤ ⌊p⌋ := Int.floor_nonneg.mpr hp0
  have hceil : ⌈p⌉ ≤ (l.length : ℤ) - 1 := by
    rw [Int.ceil_le]; push_cast; linarith
  have hfc : ⌊p⌋ ≤ ⌈p⌉ := Int.floor_le_ceil p
  have hlo : ⌊p⌋.toNat < (sortList l).length := by rw [length_sortList]; omega
  have hhi : ⌈p⌉.toNat < (sortList l).length := by rw [length_sortList]; omega
  have hvlo : (sortList l).getD ⌊p⌋.toNat 0 = v := by
    rw [List.getD_eq_getElem _ _ hlo]
    exact hall _ (mem_sortList.mp (List.getElem_mem _))
  have hvhi : (sortList l).getD ⌈p⌉.toNat 0 = v := by
    rw [List.getD_eq_getElem _ _ hhi]
    exact hall _ (mem_sortList.mp (List.getElem_mem _))
  unfold percentileVal interpAt
  rw [← hpdef, hvlo, hvhi]
  ring

/-! ## Properties of the covariance estimators -/

lemma quadform_vecMulVec {N : ℕ} (v x : Fin N → ℝ) :
    x ⬝ᵥ (vecMulVec v v).mulVec x = (∑ i, v i * x i) ^ 2 := by
  simp only [Matrix.mulVec, Matrix.dotProduct, Matrix.vecMulVec_apply]
  rw [sq, Finset.sum_mul_sum]
  refine Finset.sum_congr rfl fun i _ => ?_
  rw [Finset.mul_sum]
  refine Finset.sum_congr rfl fun j _ => ?_
  ring

lemma vecMulVec_self_isSymm {N : ℕ} (v : Fin N → ℝ) :
    (vecMulVec v v).IsSymm := by
  unfold Matrix.IsSymm
  ext i j
  simp [Matrix.vecMulVec_apply, mul_comm]

lemma sample_cov_isSymm {N : ℕ} (rows : List (Fin N → ℝ)) :
    (sample_cov rows).IsSymm := by
  unfold Matrix.IsSymm
  ext i j
  simp only [Matrix.transpose_apply, sample_cov, Matrix.of_apply]
  congr 1
  exact congrArg List.sum (List.map_congr_left fun r _ => by ring)

lemma quadform_matrix_sum_outer {N : ℕ} (f : (Fin N → ℝ) → (Fin N → ℝ))
    (rows : List (Fin N → ℝ)) (x : Fin N → ℝ) :
    x ⬝ᵥ (Matrix.of fun i j => (rows.map (fun r => f r i * f r j)).sum).mulVec x
      = (rows.map (fun r => (∑ i, f r i * x i) ^ 2)).sum := by
  induction rows with
  | nil => simp [Matrix.mulVec, Matrix.dotProduct]
  | cons a t ih =>
    have hsplit : (Matrix.of fun i j => (((a :: t).map (fun r => f r i * f r j)).sum))
        = vecMulVec (f a) (f a)
          + Matrix.of fun i j => ((t.map (fun r => f r i * f r j)).sum) := by
      ext i j
      simp [Matrix.vecMulVec_apply]
    rw [hsplit, Matrix.add_mulVec, Matrix.dotProduct_add, ih, quadform_vecMulVec]
    simp

lemma sample_cov_eq_smul_outer {N : ℕ} (rows : List (Fin N → ℝ)) :
    sample_cov rows = ((rows.length : ℝ) - 1)⁻¹ •
      Matrix.of (fun i j =>
        ((rows.map
          (fun r => (r i - colMean rows i) * (r j - colMean rows j))).sum)) := by
  ext i j
  simp [sample_cov, Matrix.smul_apply, div_eq_inv_mul, smul_eq_mul]

lemma quadform_sample_cov_nonneg {N : ℕ} (rows : List (Fin N → ℝ))
    (x : Fin N → ℝ) : 0 ≤ x ⬝ᵥ (sample_cov rows).mulVec x := by
  rw [sample_cov_eq_smul_outer, Matrix.smul_mulVec_assoc, Matrix.dotProduct_smul,
    quadform_matrix_sum_outer (fun r i => r i - colMean rows i) rows x]
  cases rows with
  | nil => simp
  | cons a t =>
    have hlen1 : 1 ≤ (a :: t).length := List.length_pos.mpr (List.cons_ne_nil a t)
    have hlen : (1 : ℝ) ≤ ((a :: t).length : ℝ) := by exact_mod_cast hlen1
    have hinv : 0 ≤ (((a :: t).length : ℝ) - 1)⁻¹ := by
      apply inv_nonneg.mpr; linarith
    have hsum : 0 ≤ ((a :: t).map
        (fun r => (∑ i, (r i - colMean (a :: t) i) * x i) ^ 2)).sum := by
      apply List.sum_nonneg
      intro y hy
      obtain ⟨r, _, rfl⟩ := List.mem_map.mp hy
      positivity
    simpa [smul_eq_mul] using mul_nonneg hinv hsum

lemma ewma_step_isSymm {N : ℕ} {lam : ℝ} {C : Matrix (Fin N) (Fin N) ℝ}
    (hC : C.IsSymm) (r : Fin N → ℝ) : (ewma_step lam C r).IsSymm :=
  (hC.smul lam).add ((vecMulVec_self_isSymm r).smul (1 - lam))

lemma ewma_step_quadform {N : ℕ} (lam : ℝ) (C : Matrix (Fin N) (Fin N) ℝ)
    (r x : Fin N → ℝ) :
    x ⬝ᵥ (ewma_step lam C r).mulVec x
      = lam * (x ⬝ᵥ C.mulVec x) + (1 - lam) * (∑ i, r i * x i) ^ 2 := by
  unfold ewma_step
  rw [Matrix.add_mulVec, Matrix.dotProduct_add, Matrix.smul_mulVec_assoc,
    Matrix.dotProduct_smul, Matrix.smul_mulVec_assoc, Matrix.dotProduct_smul,
    quadform_vecMulVec]
  simp [smul_eq_mul]

lemma ewma_fold_psd {N : ℕ} {lam : ℝ} (h0 : 0 ≤ lam) (h1 : lam ≤ 1)
    (rs : List (Fin N → ℝ)) (C : Matrix (Fin N) (Fin N) ℝ) (hCs : C.IsSymm)
    (hCp : ∀ x, 0 ≤ x ⬝ᵥ C.mulVec x) :
    (rs.foldl (ewma_step lam) C).IsSymm ∧
      ∀ x, 0 ≤ x ⬝ᵥ (rs.foldl (ewma_step lam) C).mulVec x := by
  induction rs generalizing C with
  | nil => exact ⟨hCs, hCp⟩
  | cons a t ih =>
    rw [List.foldl_cons]
    apply ih
    · exact ewma_step_isSymm hCs a
    · intro x
      rw [ewma_step_quadform]
      nlinarith [hCp x, sq_nonneg (∑ i, a i * x i)]

lemma foldl_fixed {α β : Type} (f : β → α → β) (b : β) (a : α)
    (h : f b a = b) : ∀ m, (List.replicate m a).foldl f b = b
  | 0 => rfl
  | m + 1 => by
    rw [List.replicate_succ, List.foldl_cons, h]
    exact foldl_fixed f b a h m

lemma sample_cov_zero_rows {N : ℕ} (n : ℕ) :
    sample_cov (List.replicate n (fun _ : Fin N => (0 : ℝ))) = 0 := by
  ext i j
  simp [sample_cov, colMean, List.map_replicate, List.sum_replicate]

lemma ewma_covariance_zero_rows {N : ℕ} (n : ℕ) (lam : ℝ) :
    calculate_ewma_covariance (List.replicate n (fun _ : Fin N => (0 : ℝ))) lam
      = 0 := by
  unfold calculate_ewma_covariance
  rw [sample_cov_zero_rows, smul_zero, List.drop_replicate]
  apply foldl_fixed
  unfold ewma_step
  have hv : vecMulVec (fun _ : Fin N => (0 : ℝ)) (fun _ : Fin N => (0 : ℝ)) = 0 := by
    ext i j
    simp [Matrix.vecMulVec_apply]
  rw [hv]
  simp

/-! ## Bootstrap-pool helper lemmas -/

lemma bootstrap_pool_length (sampler : ℕ → ℕ) (returns : List ℝ)
    (time_horizon : ℕ) :
    (bootstrap_pool sampler returns time_horizon).length
      = 1000 * returns.length := by
  simp [bootstrap_pool]

lemma bootstrap_pool_ne_nil (sampler : ℕ → ℕ) {returns : List ℝ}
    (hne : returns ≠ []) (time_horizon : ℕ) :
    bootstrap_pool sampler returns time_horizon ≠ [] := by
  intro hc
  have h1 := bootstrap_pool_length sampler returns time_horizon
  rw [hc, List.length_nil] at h1
  have h2 : 1 ≤ returns.length := List.length_pos.mpr hne
  omega

lemma bootstrap_pool_replicate_mem {n : ℕ} {c : ℝ} {sampler : ℕ → ℕ}
    (hs : ∀ j, sampler j < n) (time_horizon : ℕ) :
    ∀ x ∈ bootstrap_pool sampler (List.replicate n c) time_horizon,
      x = c * Real.sqrt time_horizon := by
  intro x hx
  simp only [bootstrap_pool, List.map_replicate, List.mem_map,
    List.mem_range] at hx
  obtain ⟨j, _, rfl⟩ := hx
  have hj : sampler j < (List.replicate n (c * Real.sqrt time_horizon)).length := by
    simpa using hs j
  rw [List.getD_eq_getElem _ _ hj, List.getElem_replicate]

lemma historical_var_replicate {n : ℕ} (hn : 1 ≤ n) (c alpha value : ℝ)
    (sampler : ℕ → ℕ) (hs : ∀ j, sampler j < n) (time_horizon : ℕ)
    (ha0 : 0 ≤ alpha) (ha1 : alpha ≤ 1) :
    calculate_historical_var sampler (List.replicate n c) time_horizon alpha value
      = |c * Real.sqrt time_horizon * value| := by
  unfold calculate_historical_var
  have hne : bootstrap_pool sampler (List.replicate n c) time_horizon ≠ [] := by
    apply bootstrap_pool_ne_nil
    intro hc
    have := congrArg List.length hc
    simp at this
    omega
  rw [percentileVal_const hne (bootstrap_pool_replicate_mem hs time_horizon)
    (by linarith) (by linarith)]

lemma percentileVal_singleton (v q : ℝ) : percentileVal [v] q = v := by
  have hs : sortList [v] = [v] := rfl
  simp [percentileVal, interpAt, hs]

/-! ## Claim theorems -/

/-- C7 (confirmed): the max-drawdown computation builds the wealth curve
`(1+r).cumprod()`, compares against the running (not global) maximum, and
returns the absolute value of the minimum drawdown; on `[0.10, -0.20, 0.05]`
the wealth curve is `[1.10, 0.88, 0.924]`, the running maximum
`[1.10, 1.10, 1.10]`, the drawdowns `[0, -0.20, -0.16]`, and the result
is `0.20`. -/
theorem max_drawdown_concrete_scenario :
    cum_returns [0.10, -0.20, 0.05] = [1.10, 0.88, 0.924] ∧
    rolling_max (cum_returns [0.10, -0.20, 0.05]) = [1.10, 1.10, 1.10] ∧
    drawdowns [0.10, -0.20, 0.05] = [0, -0.20, -0.16] ∧
    calculate_max_drawdown [0.10, -0.20, 0.05] = 0.20 := by
  have h1 : cum_returns [(0.10 : ℝ), -0.20, 0.05] = [1.10, 0.88, 0.924] := by
    norm_num [cum_returns, cumprodFrom]
  have h2 : rolling_max [(1.10 : ℝ), 0.88, 0.924] = [1.10, 1.10, 1.10] := by
    norm_num [rolling_max, runningMaxFrom, max_def]
  have h3 : drawdowns [(0.10 : ℝ), -0.20, 0.05] = [0, -0.20, -0.16] := by
    unfold drawdowns
    rw [h1, h2]
    norm_num [List.zipWith]
  refine ⟨h1, by rw [h1]; exact h2, h3, ?_⟩
  unfold calculate_max_drawdown
  rw [h3]
  norm_num [listMin, min_def, abs]

/-- C3 (confirmed): for every valid configuration and every non-empty
return table, the three VaR results of `calculate_all_var_methods` are
non-negative — each method ends by taking an absolute value. -/
theorem all_var_methods_nonneg {N : ℕ} (P : Portfolio N) (cfg : RiskConfig)
    (sampler : ℕ → ℕ) (draws : ℕ → ℕ → ℝ) (z : ℝ)
    (hc0 : 0 < cfg.confidence_level) (hc1 : cfg.confidence_level < 1)
    (hh : 1 ≤ cfg.time_horizon) (hs : 1 ≤ cfg.simulations)
    (hne : P.returns ≠ []) :
    0 ≤ (calculate_all_var_methods P cfg sampler draws z).historical ∧
    0 ≤ (calculate_all_var_methods P cfg sampler draws z).parametric ∧
    0 ≤ (calculate_all_var_methods P cfg sampler draws z).monte_carlo := by
  refine ⟨?_, ?_, ?_⟩ <;>
    simp only [calculate_all_var_methods, calculate_historical_var,
      calculate_parametric_var, calculate_monte_carlo_var] <;>
    exact abs_nonneg _

/-- Witness for C3 at a concrete valid configuration and portfolio. -/
theorem all_var_methods_nonneg_witness :
    0 ≤ (calculate_all_var_methods
        (⟨[fun _ => 0.01], fun _ => 1, 100000⟩ : Portfolio 1) ⟨0.95, 1, 10⟩
        (fun _ => 0) (fun _ _ => 0) (-1.6448536269514722)).historical ∧
    0 ≤ (calculate_all_var_methods
        (⟨[fun _ => 0.01], fun _ => 1, 100000⟩ : Portfolio 1) ⟨0.95, 1, 10⟩
        (fun _ => 0) (fun _ _ => 0) (-1.6448536269514722)).parametric ∧
    0 ≤ (calculate_all_var_methods
        (⟨[fun _ => 0.01], fun _ => 1, 100000⟩ : Portfolio 1) ⟨0.95, 1, 10⟩
        (fun _ => 0) (fun _ _ => 0) (-1.6448536269514722)).monte_carlo :=
  all_var_methods_nonneg _ _ _ _ _ (by norm_num) (by norm_num) (by norm_num)
    (by norm_num) (by simp)

/-- C5 (confirmed): parametric VaR scales exactly with `sqrt(timeHorizon)`:
the code computes horizon volatility as `sqrt(variance * timeHorizon)`, so
the VaR at horizon `h` equals `sqrt(h)` times the VaR at horizon 1. -/
theorem parametric_var_sqrt_horizon_scaling {N : ℕ} (z : ℝ)
    (rows : List (Fin N → ℝ)) (weights : Fin N → ℝ) (value : ℝ) (h : ℕ) :
    calculate_parametric_var z rows weights value h
      = Real.sqrt h * calculate_parametric_var z rows weights value 1 := by
  simp only [calculate_parametric_var]
  set v := weights ⬝ᵥ (calculate_ewma_covariance rows 0.94).mulVec weights with hv
  rw [Nat.cast_one, mul_one, mul_comm v (h : ℝ),
    Real.sqrt_mul (Nat.cast_nonneg h) v]
  have harr : z * (Real.sqrt h * Real.sqrt v) * value
      = Real.sqrt h * (z * Real.sqrt v * value) := by ring
  rw [harr, abs_mul, abs_of_nonneg (Real.sqrt_nonneg (h : ℝ))]

/-- C8 (confirmed): the EWMA covariance estimator (sample covariance × 252
as the initial value, then `Cov ← λ·Cov + (1−λ)·r rᵀ` over the remaining
observations in order, λ = 0.94, raw return rows) produces a symmetric
positive-semi-definite matrix for every table with at least 2 rows. -/
theorem ewma_covariance_symm_psd {N : ℕ} (rows : List (Fin N → ℝ))
    (hn : 2 ≤ rows.length) :
    (calculate_ewma_covariance rows 0.94).IsSymm ∧
    ∀ x, 0 ≤ x ⬝ᵥ (calculate_ewma_covariance rows 0.94).mulVec x := by
  unfold calculate_ewma_covariance
  apply ewma_fold_psd (by norm_num) (by norm_num)
  · exact (sample_cov_isSymm rows).smul _
  · intro x
    rw [Matrix.smul_mulVec_assoc, Matrix.dotProduct_smul]
    have hq := quadform_sample_cov_nonneg rows x
    simpa [smul_eq_mul] using mul_nonneg (by norm_num : (0:ℝ) ≤ 252) hq

/-- Witness for C8 on a concrete two-observation, one-asset table. -/
theorem ewma_covariance_symm_psd_witness :
    (calculate_ewma_covariance [fun _ : Fin 1 => (0.01 : ℝ), fun _ => 0.02]
        0.94).IsSymm ∧
    ∀ x, 0 ≤ x ⬝ᵥ (calculate_ewma_covariance
        [fun _ : Fin 1 => (0.01 : ℝ), fun _ => 0.02] 0.94).mulVec x :=
  ewma_covariance_symm_psd _ (by simp)

/-- C1 counterexample: on the constant (zero-variance) series
`[0.01, 0.01]` with horizon 1, alpha 0.05 and portfolio value 100000 the
historical VaR is exactly 1000 — one percent of the portfolio value, not
approximately 0.  Every bootstrap draw from a constant series equals the
constant, so the result is deterministic. -/
theorem historical_var_constant_not_small :
    calculate_historical_var (fun _ => 0) [0.01, 0.01] 1 0.05 100000 = 1000 := by
  have hrep : ([0.01, 0.01] : List ℝ) = List.replicate 2 0.01 := rfl
  rw [hrep, historical_var_replicate (by norm_num) _ _ _ _
    (fun j => by norm_num) 1 (by norm_num) (by norm_num)]
  rw [Nat.cast_one, Real.sqrt_one]
  norm_num

/-- C1 (amended): on every constant return series the historical VaR
completes without error and equals `|c| * sqrt(timeHorizon) * value`; it
is approximately 0 only when the constant `c` is itself approximately 0
(and exactly 0 for the all-zero series). -/
theorem historical_var_constant_series {n : ℕ} (hn : 1 ≤ n)
    (c alpha value : ℝ) (sampler : ℕ → ℕ) (hs : ∀ j, sampler j < n)
    (time_horizon : ℕ) (ha0 : 0 ≤ alpha) (ha1 : alpha ≤ 1) (hv : 0 ≤ value) :
    calculate_historical_var sampler (List.replicate n c) time_horizon alpha value
      = |c| * Real.sqrt time_horizon * value := by
  rw [historical_var_replicate hn c alpha value sampler hs time_horizon ha0 ha1]
  rw [abs_mul, abs_mul, abs_of_nonneg (Real.sqrt_nonneg _), abs_of_nonneg hv]

/-- Witness for the amended C1 at a concrete constant series. -/
theorem historical_var_constant_series_witness :
    calculate_historical_var (fun _ => 0) (List.replicate 2 (0.01 : ℝ)) 1
        (1 / 20) 100000 = |(0.01 : ℝ)| * Real.sqrt ((1 : ℕ) : ℝ) * 100000 :=
  historical_var_constant_series (by norm_num) 0.01 (1 / 20) 100000
    (fun _ => 0) (fun j => by norm_num) 1 (by norm_num) (by norm_num)
    (by norm_num)

/-- C2 counterexample: on the zero-variance (all-zero) return series the
parametric VaR computation completes normally and returns the number 0;
no `DegenerateInputError` is raised — no such exception class exists
anywhere in the code, and numpy division by zero only emits a (suppressed)
warning. -/
theorem parametric_var_zero_variance_numeric :
    calculate_parametric_var (-1.6448536269514722)
      [fun _ : Fin 1 => (0 : ℝ), fun _ => 0] (fun _ => 1) 100000 1 = 0 := by
  have hrep : ([fun _ : Fin 1 => (0 : ℝ), fun _ => 0] : List (Fin 1 → ℝ))
      = List.replicate 2 (fun _ => 0) := rfl
  simp only [calculate_parametric_var, hrep, ewma_covariance_zero_rows]
  simp

/-- C2 (amended): none of `sharpe_ratio`, `parametric` or the component
decomposition raises `DegenerateInputError` on zero-variance input — the
exception class does not exist in the repository.  `sharpe_ratio` and the
decomposition divide by the zero volatility (numpy yields non-finite
floats under the module-wide warning suppression), and the parametric VaR
on the all-zero series returns the number 0, proved here. -/
theorem parametric_var_zero_variance_returns_zero {N : ℕ} (z value : ℝ)
    (time_horizon : ℕ) (weights : Fin N → ℝ) (n : ℕ) (hn : 2 ≤ n) :
    calculate_parametric_var z
      (List.replicate n (fun _ : Fin N => (0 : ℝ))) weights value time_horizon
      = 0 := by
  simp only [calculate_parametric_var, ewma_covariance_zero_rows]
  simp

/-- Witness for the amended C2 at a concrete degenerate input. -/
theorem parametric_var_zero_variance_returns_zero_witness :
    calculate_parametric_var (-1.6448536269514722)
      (List.replicate 3 (fun _ : Fin 2 => (0 : ℝ))) (fun _ => 0.5) 100000 1
      = 0 :=
  parametric_var_zero_variance_returns_zero _ _ _ _ 3 (by norm_num)

/-- C9 counterexample: with `confidenceLevel = 0` — outside `(0, 1)` —
the constructor silently stores `alpha = 1` and the historical VaR
computation completes with the numeric value 1000; no
`InvalidConfigurationError` is raised (no such class exists in the code,
and neither `__init__` nor `calculate_all_var_methods` validates
anything). -/
theorem invalid_config_produces_numeric_value :
    alphaOf ⟨0, 1, 10⟩ = 1 ∧
    (calculate_all_var_methods
        (⟨[fun _ => 0.01], fun _ => 1, 100000⟩ : Portfolio 1) ⟨0, 1, 10⟩
        (fun _ => 0) (fun _ _ => 0) 0).historical = 1000 := by
  constructor
  · norm_num [alphaOf]
  · have hpr : portfolio_returns
        (⟨[fun _ => 0.01], fun _ => 1, 100000⟩ : Portfolio 1) = [0.01] := by
      simp [portfolio_returns]
    simp only [calculate_all_var_methods, hpr]
    have hrep : ([0.01] : List ℝ) = List.replicate 1 0.01 := rfl
    rw [hrep, historical_var_replicate (by norm_num) _ _ _ _
      (fun j => by norm_num) 1 (by norm_num [alphaOf]) (by norm_num [alphaOf])]
    rw [Nat.cast_one, Real.sqrt_one]
    norm_num

/-- C9 (amended): the Risk Calculator performs no configuration
validation: for any `confidenceLevel` `c` with `0 ≤ c ≤ 1` — including
the invalid boundary values 0 and 1 — construction stores
`alpha = 1 − c` and the historical VaR of a one-element series evaluates
to the number `|r * value|` instead of raising.  (For `c` outside
`[0, 1]` numpy itself rejects the out-of-range percentile with a plain
`ValueError`, still not an `InvalidConfigurationError`.) -/
theorem no_configuration_validation (c r value : ℝ) (th sims : ℕ)
    (hc0 : 0 ≤ c) (hc1 : c ≤ 1) :
    alphaOf ⟨c, th, sims⟩ = 1 - c ∧
    calculate_historical_var (fun _ => 0) [r] 1 (alphaOf ⟨c, th, sims⟩) value
      = |r * value| := by
  refine ⟨rfl, ?_⟩
  have hrep : ([r] : List ℝ) = List.replicate 1 r := rfl
  rw [hrep, historical_var_replicate (by norm_num) _ _ _ _
    (fun j => by norm_num) 1 (by simp [alphaOf]; linarith)
    (by simp [alphaOf]; linarith)]
  rw [Nat.cast_one, Real.sqrt_one, mul_one]

/-- Witness for the amended C9 at the invalid configuration
`confidenceLevel = 0`. -/
theorem no_configuration_validation_witness :
    alphaOf ⟨0, 1, 10⟩ = 1 - 0 ∧
    calculate_historical_var (fun _ => 0) [(0.01 : ℝ)] 1 (alphaOf ⟨0, 1, 10⟩)
        100000 = |(0.01 : ℝ) * 100000| :=
  no_configuration_validation 0 0.01 100000 1 10 (by norm_num) (by norm_num)

/-- C10 (confirmed): there are inputs with strictly positive portfolio
volatility for which a component VaR entry is strictly negative — no
absolute value is applied in `_calculate_component_var`.  Concretely: two
perfectly correlated assets with returns `(±0.02, ±0.01)` and weights
`(1, -1)` give a negative component for asset 1. -/
theorem component_var_negative_entry :
    0 < portfolio_vol [![(0.02 : ℝ), 0.01], ![-0.02, -0.01]] ![1, -1] ∧
    calculate_component_var [![(0.02 : ℝ), 0.01], ![-0.02, -0.01]] ![1, -1]
      100000 1 < 0 := by
  have hm1 : (((252 : ℝ) • sample_cov
      [![(0.02 : ℝ), 0.01], ![-0.02, -0.01]]).mulVec ![1, -1]) 1 = 63 / 1250 := by
    norm_num [Matrix.mulVec, Matrix.dotProduct, Fin.sum_univ_two, sample_cov,
      colMean, Matrix.smul_apply, Matrix.of_apply, Matrix.cons_val_zero,
      Matrix.cons_val_one, Matrix.head_cons, smul_eq_mul]
  have hq : ![1, -1] ⬝ᵥ (((252 : ℝ) • sample_cov
      [![(0.02 : ℝ), 0.01], ![-0.02, -0.01]]).mulVec ![1, -1]) = 63 / 1250 := by
    norm_num [Matrix.mulVec, Matrix.dotProduct, Fin.sum_univ_two, sample_cov,
      colMean, Matrix.smul_apply, Matrix.of_apply, Matrix.cons_val_zero,
      Matrix.cons_val_one, Matrix.head_cons, smul_eq_mul]
  have hvol : portfolio_vol [![(0.02 : ℝ), 0.01], ![-0.02, -0.01]] ![1, -1]
      = Real.sqrt (63 / 1250) := by
    unfold portfolio_vol
    rw [hq]
  have hpos : (0 : ℝ) < Real.sqrt (63 / 1250) :=
    Real.sqrt_pos.mpr (by norm_num)
  refine ⟨by rw [hvol]; exact hpos, ?_⟩
  simp only [calculate_component_var]
  rw [hm1, hvol, Real.div_sqrt]
  have h1 : (![1, -1] : Fin 2 → ℝ) 1 = -1 := by
    norm_num [Matrix.cons_val_one, Matrix.head_cons]
  rw [h1]
  nlinarith [hpos]

/-- C6 (amended): Euler identity — the component VaR values sum exactly
to `portfolioVol * portfolioValue` whenever the portfolio volatility is
strictly positive.  (The second half of the original claim — closeness to
the parametric VaR at the same confidence/horizon — is refuted by the
counterexample: the two quantities differ by the factor
`|z_alpha| * sqrt(horizon)` and by the EWMA-versus-sample covariance.) -/
theorem component_var_sums_to_portfolio_vol {N : ℕ}
    (rows : List (Fin N → ℝ)) (weights : Fin N → ℝ) (value : ℝ)
    (hpos : 0 < portfolio_vol rows weights) :
    ∑ i, calculate_component_var rows weights value i
      = portfolio_vol rows weights * value := by
  have hq : 0 < weights ⬝ᵥ ((252 : ℝ) • sample_cov rows).mulVec weights := by
    have h := hpos
    unfold portfolio_vol at h
    exact Real.sqrt_pos.mp h
  simp only [calculate_component_var]
  have hre : ∀ i ∈ Finset.univ,
      weights i * ((((252 : ℝ) • sample_cov rows).mulVec weights) i /
        portfolio_vol rows weights) * value
      = weights i * (((252 : ℝ) • sample_cov rows).mulVec weights) i *
        (value / portfolio_vol rows weights) := by
    intro i _
    ring
  rw [Finset.sum_congr rfl hre, ← Finset.sum_mul]
  have hdot : ∑ i, weights i * (((252 : ℝ) • sample_cov rows).mulVec weights) i
      = weights ⬝ᵥ ((252 : ℝ) • sample_cov rows).mulVec weights := rfl
  rw [hdot]
  unfold portfolio_vol
  set q := weights ⬝ᵥ ((252 : ℝ) • sample_cov rows).mulVec weights with hqdef
  have hsplit : q * (value / Real.sqrt q) = q / Real.sqrt q * value := by
    ring
  rw [hsplit, Real.div_sqrt]

/-- Witness for the amended C6 on a concrete one-asset table. -/
theorem component_var_sums_to_portfolio_vol_witness :
    ∑ i, calculate_component_var [![(0.01 : ℝ)], ![0.03]] ![1] 100000 i
      = portfolio_vol [![(0.01 : ℝ)], ![0.03]] ![1] * 100000 :=
  component_var_sums_to_portfolio_vol _ _ _ (by
    have hq : (![1] : Fin 1 → ℝ) ⬝ᵥ (((252 : ℝ) • sample_cov
        [![(0.01 : ℝ)], ![0.03]]).mulVec ![1]) = 63 / 1250 := by
      norm_num [Matrix.mulVec, Matrix.dotProduct, Fin.sum_univ_one, sample_cov,
        colMean, Matrix.smul_apply, Matrix.of_apply, Matrix.cons_val_zero,
        smul_eq_mul]
    unfold portfolio_vol
    rw [hq]
    exact Real.sqrt_pos.mpr (by norm_num))

/-- C6 counterexample: on the one-asset table `[0.01, 0.03]` with weight 1,
portfolio value 100000, 95% confidence (z = norm.ppf(0.05)
= -1.6448536269514722) and horizon 1, the component-VaR sum
(= sqrt(0.0504)·100000 ≈ 22450) is smaller than two thirds of the
parametric VaR (= 1.6449·sqrt(0.04743)·100000 ≈ 35822): the relative
deviation exceeds 50%, refuting "within a small relative tolerance" at
the same confidence/horizon. -/
theorem component_sum_not_close_to_parametric :
    0 < ∑ i, calculate_component_var [![(0.01 : ℝ)], ![0.03]] ![1] 100000 i ∧
    3 / 2 * ∑ i, calculate_component_var [![(0.01 : ℝ)], ![0.03]] ![1] 100000 i
      < calculate_parametric_var (-1.6448536269514722) [![(0.01 : ℝ)], ![0.03]]
          ![1] 100000 1 := by
  have hq : (![1] : Fin 1 → ℝ) ⬝ᵥ (((252 : ℝ) • sample_cov
      [![(0.01 : ℝ)], ![0.03]]).mulVec ![1]) = 63 / 1250 := by
    norm_num [Matrix.mulVec, Matrix.dotProduct, Fin.sum_univ_one, sample_cov,
      colMean, Matrix.smul_apply, Matrix.of_apply, Matrix.cons_val_zero,
      smul_eq_mul]
  have hm0 : (((252 : ℝ) • sample_cov
      [![(0.01 : ℝ)], ![0.03]]).mulVec ![1]) 0 = 63 / 1250 := by
    norm_num [Matrix.mulVec, Matrix.dotProduct, Fin.sum_univ_one, sample_cov,
      colMean, Matrix.smul_apply, Matrix.of_apply, Matrix.cons_val_zero,
      smul_eq_mul]
  have hvol : portfolio_vol [![(0.01 : ℝ)], ![0.03]] ![1]
      = Real.sqrt (63 / 1250) := by
    unfold portfolio_vol
    rw [hq]
  have hsum : ∑ i, calculate_component_var [![(0.01 : ℝ)], ![0.03]] ![1]
      100000 i = Real.sqrt (63 / 1250) * 100000 := by
    rw [Fin.sum_univ_one]
    simp only [calculate_component_var]
    rw [hm0, hvol, Real.div_sqrt]
    norm_num [Matrix.cons_val_zero]
  have hewma : (calculate_ewma_covariance [![(0.01 : ℝ)], ![0.03]] 0.94)
      = Matrix.of fun _ _ : Fin 1 => (4743 / 100000 : ℝ) := by
    unfold calculate_ewma_covariance
    ext i j
    norm_num [List.foldl, ewma_step, sample_cov, colMean, Matrix.add_apply,
      Matrix.smul_apply, Matrix.of_apply, Matrix.vecMulVec_apply,
      Matrix.cons_val_zero, smul_eq_mul, Fin.eq_zero i, Fin.eq_zero j]
  have hvar : calculate_parametric_var (-1.6448536269514722)
      [![(0.01 : ℝ)], ![0.03]] ![1] 100000 1
      = 1.6448536269514722 * Real.sqrt (4743 / 100000) * 100000 := by
    simp only [calculate_parametric_var, hewma]
    have hq2 : (![1] : Fin 1 → ℝ) ⬝ᵥ ((Matrix.of fun _ _ : Fin 1 =>
        (4743 / 100000 : ℝ)).mulVec ![1]) = 4743 / 100000 := by
      norm_num [Matrix.mulVec, Matrix.dotProduct, Fin.sum_univ_one,
        Matrix.of_apply, Matrix.cons_val_zero]
    rw [hq2, Nat.cast_one, mul_one]
    rw [abs_mul, abs_mul, abs_of_nonneg (show (0:ℝ) ≤ 100000 by norm_num),
      abs_of_nonneg (Real.sqrt_nonneg _)]
    norm_num
  have ha : (0 : ℝ) ≤ 63 / 1250 := by norm_num
  have hb : (0 : ℝ) ≤ 4743 / 100000 := by norm_num
  have hspos : (0 : ℝ) < Real.sqrt (63 / 1250) := Real.sqrt_pos.mpr (by norm_num)
  rw [hsum, hvar]
  constructor
  · positivity
  · apply lt_of_pow_lt_pow_left 2 (by positivity)
    rw [mul_pow, mul_pow, mul_pow, mul_pow, Real.sq_sqrt ha, Real.sq_sqrt hb]
    norm_num

/-- The two-block list `[a × 1000, b × 1000]` is sorted when `a ≤ b`. -/
lemma sorted_two_block {a b : ℝ} (hab : a ≤ b) :
    (List.replicate 1000 a ++ List.replicate 1000 b).Sorted (· ≤ ·) := by
  unfold List.Sorted
  rw [List.pairwise_append]
  refine ⟨?_, ?_, ?_⟩
  · rw [List.pairwise_replicate]
    right
    exact le_refl a
  · rw [List.pairwise_replicate]
    right
    exact le_refl b
  · intro x hx y hy
    rw [List.eq_of_mem_replicate hx, List.eq_of_mem_replicate hy]
    exact hab

/-- Element `k` of the two-block list. -/
lemma getD_two_block {a b : ℝ} {k : ℕ} (hk : k < 2000) :
    (List.replicate 1000 a ++ List.replicate 1000 b).getD k 0
      = if k < 1000 then a else b := by
  have hlen : (List.replicate 1000 a ++ List.replicate 1000 b).length = 2000 := by
    rw [List.length_append, List.length_replicate, List.length_replicate]
  rw [List.getD_eq_getElem _ _ (by rw [hlen]; exact hk)]
  by_cases hk1 : k < 1000
  · rw [List.getElem_append_left (by rw [List.length_replicate]; exact hk1),
      List.getElem_replicate, if_pos hk1]
  · rw [List.getElem_append_right
      (by rw [List.length_replicate]; exact not_lt.mp hk1),
      List.getElem_replicate, if_neg hk1]

/-- C4 counterexample: with the series `[0.01, 0.02]` of strictly positive
returns (portfolio value 100000, horizon 1, fixed index stream drawing
each observation 1000 times), the historical VaR at confidence 3/4 equals
1000 while at confidence 1/4 it equals 2000: raising the confidence level
from 1/4 to 3/4 strictly *decreases* the historical VaR, refuting the
claimed weak monotonicity.  (When all returns are gains, the
`alpha`-percentile is positive, and the final absolute value turns the
decreasing percentile into a decreasing VaR.) -/
theorem historical_var_not_monotone_in_confidence :
    calculate_historical_var (fun j => if j < 1000 then 0 else 1)
        [0.01, 0.02] 1 (1 - 3 / 4) 100000
      < calculate_historical_var (fun j => if j < 1000 then 0 else 1)
        [0.01, 0.02] 1 (1 - 1 / 4) 100000 := by
  have hpool : bootstrap_pool (fun j => if j < 1000 then 0 else 1)
      [0.01, 0.02] 1
      = List.replicate 1000 (0.01 : ℝ) ++ List.replicate 1000 0.02 := by
    apply List.ext_getElem
    · rw [bootstrap_pool_length, List.length_append, List.length_replicate,
        List.length_replicate, List.length_cons, List.length_cons,
        List.length_nil]
    · intro i h1 h2
      simp only [bootstrap_pool, List.getElem_map, List.getElem_range]
      by_cases hi : i < 1000
      · rw [if_pos hi,
          List.getElem_append_left (by rw [List.length_replicate]; exact hi),
          List.getElem_replicate]
        norm_num [Nat.cast_one, Real.sqrt_one]
      · rw [if_neg hi,
          List.getElem_append_right
            (by rw [List.length_replicate]; exact not_lt.mp hi),
          List.getElem_replicate]
        norm_num [Nat.cast_one, Real.sqrt_one]
  have hlen : (List.replicate 1000 (0.01 : ℝ)
      ++ List.replicate 1000 (0.02 : ℝ)).length = 2000 := by
    rw [List.length_append, List.length_replicate, List.length_replicate]
  have hsl : sortList (List.replicate 1000 (0.01 : ℝ)
      ++ List.replicate 1000 0.02)
      = List.replicate 1000 (0.01 : ℝ) ++ List.replicate 1000 0.02 :=
    List.eq_of_perm_of_sorted (List.perm_insertionSort _ _)
      (List.sorted_insertionSort _ _) (sorted_two_block (by norm_num))
  have hp25 : percentileVal (List.replicate 1000 (0.01 : ℝ)
      ++ List.replicate 1000 0.02) 25 = 0.01 := by
    unfold percentileVal
    rw [hsl, hlen]
    have hpos : (25 : ℝ) / 100 * ((2000 : ℕ) - 1 : ℝ) = 1999 / 4 := by
      norm_num
    rw [hpos]
    have hfl : ⌊(1999 / 4 : ℝ)⌋ = 499 := by
      rw [Int.floor_eq_iff]
      norm_num
    have hcl : ⌈(1999 / 4 : ℝ)⌉ = 500 := by
      rw [Int.ceil_eq_iff]
      norm_num
    unfold interpAt
    rw [hfl, hcl]
    rw [getD_two_block (by norm_num), getD_two_block (by norm_num)]
    norm_num
  have hp75 : percentileVal (List.replicate 1000 (0.01 : ℝ)
      ++ List.replicate 1000 0.02) 75 = 0.02 := by
    unfold percentileVal
    rw [hsl, hlen]
    have hpos : (75 : ℝ) / 100 * ((2000 : ℕ) - 1 : ℝ) = 5997 / 4 := by
      norm_num
    rw [hpos]
    have hfl : ⌊(5997 / 4 : ℝ)⌋ = 1499 := by
      rw [Int.floor_eq_iff]
      norm_num
    have hcl : ⌈(5997 / 4 : ℝ)⌉ = 1500 := by
      rw [Int.ceil_eq_iff]
      norm_num
    unfold interpAt
    rw [hfl, hcl]
    rw [getD_two_block (by norm_num), getD_two_block (by norm_num)]
    norm_num
  unfold calculate_historical_var
  rw [hpool, show ((1 : ℝ) - 3 / 4) * 100 = 25 by norm_num,
    show ((1 : ℝ) - 1 / 4) * 100 = 75 by norm_num, hp25, hp75]
  norm_num

/-- C4 (amended): monotonicity in the confidence level holds under the
provisos forced by the counterexample: the percentile at the *lower*
confidence level must lie in the loss tail (≤ 0) for the historical and
Monte-Carlo methods, and the two normal quantiles must satisfy
`z₂ ≤ z₁ ≤ 0` (true for the normal inverse CDF whenever `c₁ ≥ 1/2`).
Then each of the three VaR values at confidence `c₂ ≥ c₁` is at least the
value at `c₁`, everything else (data, index stream, draw stream, horizon,
simulation count, portfolio value) held fixed. -/
theorem var_monotone_in_confidence_conditional {N : ℕ}
    (sampler : ℕ → ℕ) (rets : List ℝ) (hne : rets ≠ [])
    (rows : List (Fin N → ℝ)) (weights : Fin N → ℝ)
    (draws : ℕ → ℕ → ℝ) (sims : ℕ) (hsims : 1 ≤ sims)
    (time_horizon : ℕ) (value : ℝ) (c₁ c₂ z₁ z₂ : ℝ)
    (hc0 : 0 < c₁) (hc12 : c₁ ≤ c₂) (hc1 : c₂ < 1)
    (hH : percentileVal (bootstrap_pool sampler rets time_horizon)
        ((1 - c₁) * 100) ≤ 0)
    (hM : percentileVal (mc_scenarios draws sims time_horizon value)
        ((1 - c₁) * 100) ≤ 0)
    (hz12 : z₂ ≤ z₁) (hz1 : z₁ ≤ 0) :
    calculate_historical_var sampler rets time_horizon (1 - c₁) value
        ≤ calculate_historical_var sampler rets time_horizon (1 - c₂) value ∧
    calculate_parametric_var z₁ rows weights value time_horizon
        ≤ calculate_parametric_var z₂ rows weights value time_horizon ∧
    calculate_monte_carlo_var draws sims time_horizon (1 - c₁) value
        ≤ calculate_monte_carlo_var draws sims time_horizon (1 - c₂) value := by
  have habs : ∀ p₁ p₂ : ℝ, p₂ ≤ p₁ → p₁ ≤ 0 → |p₁| ≤ |p₂| := by
    intro p₁ p₂ h21 h10
    rw [abs_of_nonpos h10, abs_of_nonpos (le_trans h21 h10)]
    linarith
  refine ⟨?_, ?_, ?_⟩
  · unfold calculate_historical_var
    rw [abs_mul, abs_mul]
    apply mul_le_mul_of_nonneg_right _ (abs_nonneg value)
    apply habs _ _ _ hH
    apply percentileVal_mono (bootstrap_pool_ne_nil sampler hne time_horizon)
    · nlinarith
    · nlinarith
    · nlinarith
  · simp only [calculate_parametric_var]
    rw [abs_mul, abs_mul, abs_mul, abs_mul]
    apply mul_le_mul_of_nonneg_right _ (abs_nonneg value)
    apply mul_le_mul_of_nonneg_right _ (abs_nonneg _)
    rw [abs_of_nonpos hz1, abs_of_nonpos (le_trans hz12 hz1)]
    linarith
  · unfold calculate_monte_carlo_var
    apply habs _ _ _ hM
    have hmc_ne : mc_scenarios draws sims time_horizon value ≠ [] := by
      intro hc
      have := congrArg List.length hc
      simp [mc_scenarios] at this
      omega
    apply percentileVal_mono hmc_ne
    · nlinarith
    · nlinarith
    · nlinarith

/-- Witness for the amended C4 on all-zero data, where both tail
percentiles are 0 and the quantile hypotheses hold for
`c₁ = 1/2, c₂ = 3/4` with `z₁ = norm.ppf(0.5) = 0` and
`z₂ = norm.ppf(0.25) = -0.6744897501960817`. -/
theorem var_monotone_in_confidence_conditional_witness :
    calculate_historical_var (fun _ => 0) [(0 : ℝ)] 1 (1 - 1 / 2) 100000
        ≤ calculate_historical_var (fun _ => 0) [(0 : ℝ)] 1 (1 - 3 / 4) 100000 ∧
    calculate_parametric_var (0)
        [fun _ : Fin 1 => (0 : ℝ)] (fun _ => 1) 100000 1
        ≤ calculate_parametric_var (-0.6744897501960817)
        [fun _ : Fin 1 => (0 : ℝ)] (fun _ => 1) 100000 1 ∧
    calculate_monte_carlo_var (fun _ _ => 0) 1 1 (1 - 1 / 2) 100000
        ≤ calculate_monte_carlo_var (fun _ _ => 0) 1 1 (1 - 3 / 4) 100000 :=
  var_monotone_in_confidence_conditional (fun _ => 0) [(0 : ℝ)] (by simp)
    [fun _ : Fin 1 => (0 : ℝ)] (fun _ => 1) (fun _ _ => 0) 1 (by norm_num)
    1 100000 (1 / 2) (3 / 4) (0) (-0.6744897501960817)
    (by norm_num) (by norm_num) (by norm_num)
    (by
      have hrep : ([(0 : ℝ)] : List ℝ) = List.replicate 1 0 := rfl
      rw [hrep, percentileVal_const
        (bootstrap_pool_ne_nil (fun _ => 0) (by simp) 1)
        (bootstrap_pool_replicate_mem (fun j => by norm_num) 1)
        (by norm_num) (by norm_num)]
      norm_num)
    (by
      have hsc : mc_scenarios (fun _ _ => 0) 1 1 100000 = [0] := by
        simp [mc_scenarios]
      rw [hsc, percentileVal_singleton])
    (by norm_num) (by norm_num)

end

end RiskAnalytics
